import Mathlib

/-!
Verification development for the netwatch endpoint agent (Rust sources under
`agent-rust/src`).  The transport layer (`socket/client.rs`) and the blocking
service (`services/blocking.rs`) are shallowly embedded: Rust strings become
`List Char` (with explicit UTF-8 byte accounting where the source indexes by
bytes), fallible operations return `Option`/`Except`, and the stateful parts
of the client and the blocking service become explicit state-passing
functions.  A byte slice that would panic in Rust (slicing off a character
boundary) is modelled as `none`.  Loops are written with an explicit fuel
argument so every definition is executable; fuel-independence is proved for
every fuel that exceeds the input length, so the fuelled functions agree
with the source's unbounded loops.
-/

/-- UTF-8 byte length of a list of characters, matching Rust `str::len`. -/
def byteLen (s : List Char) : Nat :=
  (s.map Char.utf8Size).sum

/-- Model of the Rust byte slice `s[..n]`: take exactly `n` bytes.
Returns `none` when `n` does not land on a character boundary (a Rust
panic) or exceeds the byte length. -/
def takeBytes : List Char → Nat → Option (List Char)
  | _, 0 => some []
  | [], _ + 1 => none
  | c :: cs, n + 1 =>
    if c.utf8Size ≤ n + 1 then
      (takeBytes cs (n + 1 - c.utf8Size)).map (c :: ·)
    else none

/-- Model of the Rust byte slice `s[n..]`: drop exactly `n` bytes.
Returns `none` when `n` does not land on a character boundary (a Rust
panic) or exceeds the byte length. -/
def dropBytes : List Char → Nat → Option (List Char)
  | s, 0 => some s
  | [], _ + 1 => none
  | c :: cs, n + 1 =>
    if c.utf8Size ≤ n + 1 then dropBytes cs (n + 1 - c.utf8Size)
    else none

/-- One step of decimal accumulation over an ASCII digit. -/
def digitStep (acc : Nat) (c : Char) : Nat :=
  acc * 10 + (c.toNat - 48)

/-- Numeric value of a list of ASCII digits, most significant first. -/
def digitsVal (ds : List Char) : Nat :=
  ds.foldl digitStep 0

/-- Digit part of Rust `str::parse::<usize>()` on a 64-bit target: one or
more ASCII digits whose value fits in 64 bits. -/
def parseUsizeDigits (digits : List Char) : Option Nat :=
  if digits ≠ [] ∧ digits.all Char.isDigit then
    if digitsVal digits < 2 ^ 64 then some (digitsVal digits) else none
  else none

/-- Model of Rust `str::parse::<usize>()`: an optional leading plus sign,
then the digits. -/
def parseUsize (s : List Char) : Option Nat :=
  match s with
  | '+' :: rest => parseUsizeDigits rest
  | _ => parseUsizeDigits s

theorem dropBytes_length_le : ∀ (s : List Char) (n : Nat) (t : List Char),
    dropBytes s n = some t → t.length ≤ s.length := by
  intro s
  induction s with
  | nil =>
    intro n t h
    cases n with
    | zero => simp [dropBytes] at h; simp [← h]
    | succ n => simp [dropBytes] at h
  | cons c cs ih =>
    intro n t h
    cases n with
    | zero => simp [dropBytes] at h; simp [← h]
    | succ n =>
      simp only [dropBytes] at h
      split at h
      · exact Nat.le_trans (ih _ _ h) (Nat.le_succ _)
      · exact absurd h (by simp)

/-- One fuelled pass of `SocketClient::parse_polling_response`
(`socket/client.rs:407-430`).  Each loop iteration consumes at least one
character, so any fuel exceeding the input length is enough (proved in
`pollGo_fuel_irrelevant`). -/
def pollGo : Nat → List Char → Option (List (List Char))
  | 0, _ => none
  | fuel + 1, text =>
    if text = [] then some []
    else
      let pre := text.takeWhile (fun c => c ≠ ':')
      match text.dropWhile (fun c => c ≠ ':'), parseUsize pre with
      | _ :: afterColon, some len =>
        let fb := min len (byteLen afterColon)
        match takeBytes afterColon fb, dropBytes afterColon fb with
        | some frame, some rest => (pollGo fuel rest).map (frame :: ·)
        | _, _ => none
      | _, _ => some [text]

/-- Embedding of `SocketClient::parse_polling_response`
(`socket/client.rs:407-430`): split a poll body into length-prefixed
frames `<len>:<frame><len>:<frame>…`, falling back to one single frame
when no valid length prefix is found.  `none` models the Rust panic that
occurs when a computed slice boundary falls inside a multi-byte UTF-8
character. -/
def parsePollingResponse (text : List Char) : Option (List (List Char)) :=
  pollGo (text.length + 1) text

theorem pollGo_fuel_irrelevant : ∀ (n : Nat) (text : List Char), text.length ≤ n →
    ∀ f1 f2, text.length < f1 → text.length < f2 → pollGo f1 text = pollGo f2 text := by
  intro n
  induction n with
  | zero =>
    intro text hlen f1 f2 h1 h2
    have : text = [] := List.length_eq_zero.mp (Nat.le_zero.mp hlen)
    subst this
    cases f1 with
    | zero => omega
    | succ f1 =>
      cases f2 with
      | zero => omega
      | succ f2 => simp [pollGo]
  | succ n ih =>
    intro text hlen f1 f2 h1 h2
    cases f1 with
    | zero => omega
    | succ f1 =>
      cases f2 with
      | zero => omega
      | succ f2 =>
        simp only [pollGo]
        by_cases he : text = []
        · simp [he]
        · simp only [he, if_false]
          have hsub : (text.dropWhile (fun c => c ≠ ':')).length ≤ text.length :=
            (List.dropWhile_sublist _).length_le
          cases hpost : text.dropWhile (fun c => c ≠ ':') with
          | nil => rfl
          | cons cchar afterColon =>
            cases hp : parseUsize (text.takeWhile (fun c => c ≠ ':')) with
            | none => rfl
            | some len =>
              have hafter : afterColon.length + 1 ≤ text.length := by
                rw [hpost] at hsub; simpa using hsub
              cases ht : takeBytes afterColon (min len (byteLen afterColon)) with
              | none => simp [ht]
              | some frame =>
                cases hd : dropBytes afterColon (min len (byteLen afterColon)) with
                | none => simp [ht, hd]
                | some rest =>
                  have hrest : rest.length ≤ afterColon.length :=
                    dropBytes_length_le _ _ _ hd
                  have hrlen : rest.length < text.length := by omega
                  have := ih rest (by omega) f1 f2 (by omega) (by omega)
                  simp [ht, hd, this]

theorem pollGo_eq_parsePollingResponse (f : Nat) (text : List Char)
    (h : text.length < f) : pollGo f text = parsePollingResponse text :=
  pollGo_fuel_irrelevant text.length text le_rfl f (text.length + 1) h (Nat.lt_succ_self _)

/-! ## JSON model (for `serde_json` as used by the client) -/

/-- JSON values as produced by `serde_json`.  Numbers are restricted to
the non-negative integers actually used by the agent protocol; objects
are association lists in source order and lookup takes the first binding
(the wire messages in scope carry no duplicate keys). -/
inductive Json where
  | null : Json
  | bool (b : Bool) : Json
  | num (n : Nat) : Json
  | str (s : List Char) : Json
  | arr (elems : List Json) : Json
  | obj (fields : List (List Char × Json)) : Json

/-- JSON-relevant whitespace, as skipped by `serde_json`. -/
def isWsChar (c : Char) : Bool :=
  c = ' ' || c = '\n' || c = '\t' || c = '\r'

def skipWs (s : List Char) : List Char :=
  s.dropWhile isWsChar

/-- The escape sequences understood inside JSON string literals. -/
def escChar (e : Char) : Option Char :=
  if e = '"' then some '"'
  else if e = '\\' then some '\\'
  else if e = '/' then some '/'
  else if e = 'n' then some '\n'
  else if e = 't' then some '\t'
  else if e = 'r' then some '\r'
  else if e = 'b' then some (Char.ofNat 8)
  else if e = 'f' then some (Char.ofNat 12)
  else none

/-- Fuelled body of a JSON string literal (each step consumes at least
one character, so any fuel above the input length is enough). -/
def parseStrGo : Nat → List Char → Option (List Char × List Char)
  | 0, _ => none
  | fuel + 1, s =>
    match s with
    | [] => none
    | c :: rest =>
      if c = '"' then some ([], rest)
      else if c = '\\' then
        match rest with
        | [] => none
        | e :: rest2 =>
          match escChar e with
          | some ec => (parseStrGo fuel rest2).map (fun p => (ec :: p.1, p.2))
          | none => none
      else (parseStrGo fuel rest).map (fun p => (c :: p.1, p.2))

/-- Body of a JSON string literal, after the opening quote.  Returns the
decoded characters and the remainder after the closing quote. -/
def parseStrBody (s : List Char) : Option (List Char × List Char) :=
  parseStrGo (s.length + 1) s

mutual

/-- Fuelled recursive-descent JSON value parser modelling `serde_json`
parsing on the message shapes used by the agent (strings, non-negative
integer numbers, booleans, null, arrays, objects). -/
def parseVal : Nat → List Char → Option (Json × List Char)
  | 0, _ => none
  | fuel + 1, s =>
    match skipWs s with
    | [] => none
    | c :: rest =>
      if c = '"' then (parseStrBody rest).map (fun p => (Json.str p.1, p.2))
      else if c = '[' then
        match skipWs rest with
        | c2 :: r =>
          if c2 = ']' then some (Json.arr [], r)
          else (parseArrElems fuel rest).map (fun p => (Json.arr p.1, p.2))
        | [] => (parseArrElems fuel rest).map (fun p => (Json.arr p.1, p.2))
      else if c = '{' then
        match skipWs rest with
        | c2 :: r =>
          if c2 = '}' then some (Json.obj [], r)
          else (parseObjFields fuel rest).map (fun p => (Json.obj p.1, p.2))
        | [] => (parseObjFields fuel rest).map (fun p => (Json.obj p.1, p.2))
      else if c = 't' then
        match rest with
        | 'r' :: 'u' :: 'e' :: r => some (Json.bool true, r)
        | _ => none
      else if c = 'f' then
        match rest with
        | 'a' :: 'l' :: 's' :: 'e' :: r => some (Json.bool false, r)
        | _ => none
      else if c = 'n' then
        match rest with
        | 'u' :: 'l' :: 'l' :: r => some (Json.null, r)
        | _ => none
      else if c.isDigit then
        some (Json.num (digitsVal (c :: rest.takeWhile Char.isDigit)),
              rest.dropWhile Char.isDigit)
      else none

/-- Comma-separated JSON array elements, consuming the closing bracket. -/
def parseArrElems : Nat → List Char → Option (List Json × List Char)
  | 0, _ => none
  | fuel + 1, s =>
    (parseVal fuel s).bind (fun p =>
      match skipWs p.2 with
      | c2 :: r2 =>
        if c2 = ',' then (parseArrElems fuel r2).map (fun q => (p.1 :: q.1, q.2))
        else if c2 = ']' then some ([p.1], r2)
        else none
      | [] => none)

/-- Comma-separated JSON object fields, consuming the closing brace. -/
def parseObjFields : Nat → List Char → Option (List (List Char × Json) × List Char)
  | 0, _ => none
  | fuel + 1, s =>
    match skipWs s with
    | c0 :: r =>
      if c0 = '"' then
        (parseStrBody r).bind (fun kp =>
          match skipWs kp.2 with
          | c1 :: r2 =>
            if c1 = ':' then
              (parseVal fuel r2).bind (fun vp =>
                match skipWs vp.2 with
                | c3 :: r4 =>
                  if c3 = ',' then
                    (parseObjFields fuel r4).map (fun q => ((kp.1, vp.1) :: q.1, q.2))
                  else if c3 = '}' then some ([(kp.1, vp.1)], r4)
                  else none
                | [] => none)
            else none
          | [] => none)
      else none
    | [] => none

end

/-- Model of `serde_json::from_str::<Value>`: parse one JSON value and
require only whitespace to follow. -/
def jsonFromStr (s : List Char) : Option Json :=
  match parseVal (s.length + 1) s with
  | some (j, rest) => if skipWs rest = [] then some j else none
  | none => none

/-! ## Decimal rendering (for length prefixes and numeric JSON fields) -/

/-- Fuelled accumulator loop producing the decimal digits of `n`. -/
def natDigitsGo : Nat → Nat → List Char → List Char
  | 0, _, acc => acc
  | fuel + 1, n, acc =>
    if n < 10 then Char.ofNat (48 + n) :: acc
    else natDigitsGo fuel (n / 10) (Char.ofNat (48 + n % 10) :: acc)

/-- Decimal rendering of a natural number, most significant digit first. -/
def natDigits (n : Nat) : List Char :=
  natDigitsGo (n + 1) n []

/-! ## Client-side wire types (`socket/client.rs`, `socket/events.rs`) -/

/-- Embedding of `SocketError` (`socket/client.rs:755-762`). -/
inductive SocketError where
  | config (msg : List Char)
  | connection (msg : List Char)
  | notConnected
  | serialization (msg : List Char)
  | emitErr (msg : List Char)
deriving Repr, DecidableEq

/-- The handshake data `connect()` deserializes from the `0{...}` open
packet (`socket/client.rs:139-149`). -/
structure Handshake where
  sid : List Char
  pingInterval : Nat
  pingTimeout : Nat
deriving Repr, DecidableEq

/-- First binding of a key in a JSON object. -/
def jsonLookup (fields : List (List Char × Json)) (key : List Char) : Option Json :=
  (fields.find? (fun f => f.1 = key)).map (fun f => f.2)

def Json.asStr : Json → Option (List Char)
  | .str s => some s
  | _ => none

def Json.asArr : Json → Option (List Json)
  | .arr xs => some xs
  | _ => none

/-- A JSON number read back as a `u64` field: the value must fit. -/
def Json.asU64 : Json → Option Nat
  | .num n => if n < 2 ^ 64 then some n else none
  | _ => none

/-- `serde_json::from_str::<Handshake>` applied to the JSON after the open
marker: an object with required fields `sid`, `pingInterval`,
`pingTimeout` (unknown extra fields are ignored). -/
def handshakeFromJson : Json → Option Handshake
  | .obj fields =>
    match jsonLookup fields "sid".toList, jsonLookup fields "pingInterval".toList,
        jsonLookup fields "pingTimeout".toList with
    | some (Json.str sid), some (Json.num pingI), some (Json.num pingT) =>
      if pingI < 2 ^ 64 ∧ pingT < 2 ^ 64 then some ⟨sid, pingI, pingT⟩ else none
    | _, _, _ => none
  | _ => none

/-- Handshake phase of `SocketClient::connect`
(`socket/client.rs:132-152`): the body must start with the engine-open
marker character and the remaining bytes must deserialize as a
`Handshake`. -/
def parseHandshake (text : List Char) : Except SocketError Handshake :=
  match text with
  | c :: rest =>
    if c = '0' then
      match jsonFromStr rest with
      | some j =>
        match handshakeFromJson j with
        | some h => Except.ok h
        | none => Except.error (SocketError.connection "Failed to parse handshake".toList)
      | none => Except.error (SocketError.connection "Failed to parse handshake".toList)
    else Except.error (SocketError.connection "Invalid handshake".toList)
  | [] => Except.error (SocketError.connection "Invalid handshake".toList)

/-- Embedding of `ServerConfigPayload` (`socket/events.rs:199-203`). -/
structure ServerConfigPayload where
  screenshotInterval : Option Nat
  activityLogInterval : Option Nat
  keystrokeBufferSize : Option Nat
deriving Repr, DecidableEq

/-- An optional `u64`-valued field of a JSON object: absent or null means
`none`; present values must be numbers in range. -/
def optU64Field (fields : List (List Char × Json)) (key : List Char) : Option (Option Nat) :=
  match jsonLookup fields key with
  | none => some none
  | some Json.null => some none
  | some (Json.num n) => if n < 2 ^ 64 then some (some n) else none
  | some _ => none

def serverConfigFromJson : Json → Option ServerConfigPayload
  | .obj fields =>
    match optU64Field fields "screenshotInterval".toList,
        optU64Field fields "activityLogInterval".toList,
        optU64Field fields "keystrokeBufferSize".toList with
    | some si, some ali, some kbs => some ⟨si, ali, kbs⟩
    | _, _, _ => none
  | _ => none

/-- Embedding of `AuthSuccessPayload` (`socket/events.rs:190-194`). -/
structure AuthSuccessPayload where
  computerId : List Char
  config : Option ServerConfigPayload
deriving Repr, DecidableEq

def authSuccessFromJson : Json → Option AuthSuccessPayload
  | .obj fields =>
    match jsonLookup fields "computerId".toList with
    | some (Json.str cid) =>
      match jsonLookup fields "config".toList with
      | none => some ⟨cid, none⟩
      | some Json.null => some ⟨cid, none⟩
      | some j => (serverConfigFromJson j).map (fun c => ⟨cid, some c⟩)
    | _ => none
  | _ => none

/-- Embedding of `AuthErrorPayload` (`socket/events.rs:208-210`). -/
structure AuthErrorPayload where
  message : List Char
deriving Repr, DecidableEq

def authErrorFromJson : Json → Option AuthErrorPayload
  | .obj fields =>
    match jsonLookup fields "message".toList with
    | some (Json.str m) => some ⟨m⟩
    | _ => none
  | _ => none

/-- Embedding of `CommandPayload` (`socket/events.rs:215-220`). -/
structure CommandPayload where
  id : List Char
  command : List Char
  payload : Option Json

def commandFromJson : Json → Option CommandPayload
  | .obj fields =>
    match jsonLookup fields "id".toList, jsonLookup fields "command".toList with
    | some (Json.str i), some (Json.str cmd) =>
      match jsonLookup fields "payload".toList with
      | none => some ⟨i, cmd, none⟩
      | some Json.null => some ⟨i, cmd, none⟩
      | some j => some ⟨i, cmd, some j⟩
    | _, _ => none
  | _ => none

/-! ## Client state, emit, and connect (`socket/client.rs`) -/

/-- The client fields the claims observe (`socket/client.rs:24-47`).
The outbound channel is modelled by the queue of frames it currently
holds (`none` = no sender task yet). -/
structure ClientState where
  connected : Bool
  sessionId : Option (List Char)
  computerId : Option (List Char)
  outgoingTx : Option (List (List Char))
deriving Repr, DecidableEq

/-- Externally observable effects of the modelled client operations. -/
inductive NetAction where
  | post (body : List Char)
  | fireAuthSuccess
  | fireAuthError (msg : List Char)
  | updateConfig
deriving Repr, DecidableEq

/-- Capacity of the outbound channel: `mpsc::channel::<String>(100)`
(`socket/client.rs:232`). -/
def queueCapacity : Nat := 100

/-- The event frame built by `SocketClient::emit`
(`socket/client.rs:600`): `42/agent,["{event}",{json_data}]`. -/
def mkFrame (event : List Char) (jsonData : List Char) : List Char :=
  "42/agent,".toList ++ '[' :: '"' :: (event ++ '"' :: ',' :: jsonData ++ [']'])

/-- Embedding of `SocketClient::send_polling_packet`
(`socket/client.rs:366-383`): fails with `NotConnected` when no session
id is stored, otherwise POSTs the body.  The HTTP round-trip itself is
modelled as succeeding. -/
def sendPollingPacket (data : List Char) (st : ClientState) :
    List NetAction × Except SocketError Unit :=
  match st.sessionId with
  | none => ([], Except.error SocketError.notConnected)
  | some _ => ([NetAction.post data], Except.ok ())

/-- Result of an emit: either it completes (with the new state, the
observable actions, and the returned value) or it blocks forever on a
saturated channel. -/
inductive EmitOutcome where
  | done (st : ClientState) (acts : List NetAction) (res : Except SocketError Unit)
  | blocked
deriving Repr

/-- Embedding of `SocketClient::emit` (`socket/client.rs:597-611`).
`jsonData` is the `serde_json::to_string` serialization of the payload;
the frame is pushed onto the outbound channel when the sender task
exists (blocking when the channel is at capacity), and POSTed directly
otherwise. -/
def emitModel (event : List Char) (jsonData : List Char) (st : ClientState) : EmitOutcome :=
  let msg := mkFrame event jsonData
  match st.outgoingTx with
  | some q =>
    if q.length < queueCapacity then
      EmitOutcome.done { st with outgoingTx := some (q ++ [msg]) } [] (Except.ok ())
    else EmitOutcome.blocked
  | none =>
    let pr := sendPollingPacket msg st
    EmitOutcome.done st pr.1 pr.2

/-- Result of `connect()`: the final state, observable actions, and the
returned value, or a forever-blocked emit. -/
inductive ConnectOutcome where
  | done (st : ClientState) (acts : List NetAction) (res : Except SocketError Unit)
  | blocked
deriving Repr

/-- Auth-response processing inside `SocketClient::connect`
(`socket/client.rs:185-233`) followed by the creation of the outbound
channel and the `Ok` return (the three background tasks are spawned at
this point and are not part of the state).  `regS`/`regE` say whether an
`AuthSuccess`/`AuthError` callback is registered.  Config merging is
recorded as the `updateConfig` action. -/
def processAuthResponse (regS regE : Bool) (auth : List Char) (st : ClientState)
    (acts : List NetAction) : ConnectOutcome :=
  let finish : ClientState → List NetAction → ConnectOutcome := fun s a =>
    ConnectOutcome.done { s with outgoingTx := some [] } a (Except.ok ())
  if "42/agent,".toList.isPrefixOf auth then
    match jsonFromStr (auth.drop 9) with
    | some (Json.arr xs) =>
      match xs.head? with
      | some (Json.str ev) =>
        let data := (xs[1]?).getD Json.null
        if ev = "auth_success".toList then
          match authSuccessFromJson data with
          | some p =>
            let st2 := { st with computerId := some p.computerId }
            let acts2 := acts ++ (if p.config.isSome then [NetAction.updateConfig] else [])
              ++ (if regS then [NetAction.fireAuthSuccess] else [])
            finish st2 acts2
          | none => finish st acts
        else if ev = "auth_error".toList then
          match authErrorFromJson data with
          | some p =>
            let acts2 := acts ++ (if regE then [NetAction.fireAuthError p.message] else [])
            ConnectOutcome.done st acts2
              (Except.error (SocketError.connection ("Auth failed: ".toList ++ p.message)))
          | none => finish st acts
        else finish st acts
      | _ => finish st acts
    | _ => finish st acts
  else finish st acts

/-- Embedding of `SocketClient::connect` (`socket/client.rs:79-363`),
parameterized by the three response bodies the server returns (handshake
GET, namespace-ack read, auth-response read) and by the serialized auth
payload `sysJson` built from the system-info collaborator.  URL
assembly, logging, and the spawned background tasks are outside the
modelled state; HTTP round-trips are modelled as succeeding. -/
def connectModel (regS regE : Bool) (hb ns auth sysJson : List Char)
    (st : ClientState) : ConnectOutcome :=
  match parseHandshake hb with
  | Except.error e => ConnectOutcome.done st [] (Except.error e)
  | Except.ok h =>
    let st1 := { st with sessionId := some h.sid }
    match sendPollingPacket "40/agent,".toList st1 with
    | (acts0, Except.error e) => ConnectOutcome.done st1 acts0 (Except.error e)
    | (acts0, Except.ok _) =>
      -- the namespace-ack read `ns` is only logged (lines 159-164)
      let _ := ns
      let st2 := { st1 with connected := true }
      match emitModel "auth".toList sysJson st2 with
      | EmitOutcome.blocked => ConnectOutcome.blocked
      | EmitOutcome.done st3 acts1 (Except.error e) =>
        ConnectOutcome.done st3 (acts0 ++ acts1) (Except.error e)
      | EmitOutcome.done st3 acts1 (Except.ok _) =>
        processAuthResponse regS regE auth st3 (acts0 ++ acts1)

/-- Embedding of `SocketClient::is_connected` (`socket/client.rs:592-594`). -/
def isConnected (st : ClientState) : Bool :=
  st.connected

/-- Embedding of `SocketClient::disconnect` (`socket/client.rs:584-589`). -/
def disconnectModel (st : ClientState) : ClientState :=
  { st with connected := false, sessionId := none, outgoingTx := none }

/-! ## Event registry and inbound dispatch -/

/-- The callback slots the claims observe: the multi-slot `on_command`
list (`socket/client.rs:37`, `socket/client.rs:624-627`) and the
single-slot `on_capture_screenshot` flag.  The remaining single-slot
branches of `handle_event_static` fire only their own callbacks, which
are modelled as unregistered here and therefore contribute nothing
observable. -/
structure Registry (α : Type) where
  onCommand : List α
  onCaptureScreenshot : Bool

/-- One observable callback invocation. -/
inductive Dispatch (α : Type) where
  | command (cb : α) (p : CommandPayload)
  | captureScreenshot

/-- `SocketClient::on_command` (`socket/client.rs:624-627`): appends to
the callback list. -/
def registerCommand (cb : α) (reg : Registry α) : Registry α :=
  { reg with onCommand := reg.onCommand ++ [cb] }

/-- Embedding of `SocketClient::handle_event_static`
(`socket/client.rs:434-527`) projected onto the observed slots: the
`"command"` branch parses a `CommandPayload` and invokes every
registered command callback in order; the `"capture_screenshot"` branch
invokes its single-slot callback when registered. -/
def handleEventStatic (ev : List Char) (data : Json) (reg : Registry α) : List (Dispatch α) :=
  if ev = "command".toList then
    match commandFromJson data with
    | some p => reg.onCommand.map (fun cb => Dispatch.command cb p)
    | none => []
  else if ev = "capture_screenshot".toList then
    if reg.onCaptureScreenshot then [Dispatch.captureScreenshot] else []
  else []

/-- Per-frame handling in the inbound poller (`socket/client.rs:317-347`):
skip pong/noop, require the `42/agent,` prefix, parse the JSON array,
and dispatch on the event name. -/
def processPollMessage (reg : Registry α) (msg : List Char) : List (Dispatch α) :=
  if msg = "3".toList ∨ msg = "6".toList then []
  else if "42/agent,".toList.isPrefixOf msg then
    match jsonFromStr (msg.drop 9) with
    | some (Json.arr xs) =>
      match xs.head? with
      | some (Json.str ev) => handleEventStatic ev ((xs[1]?).getD Json.null) reg
      | _ => []
    | _ => []
  else []

/-- One poll response handled end to end (`socket/client.rs:315-347`):
split the body into frames, then dispatch each frame in order.  `none`
models the parse panic. -/
def processPollBody (reg : Registry α) (text : List Char) : Option (List (Dispatch α)) :=
  (parsePollingResponse text).map (fun frames => frames.flatMap (processPollMessage reg))

/-- Is a dispatch the capture-screenshot callback firing? -/
def Dispatch.isCapture : Dispatch α → Bool
  | .captureScreenshot => true
  | _ => false

/-! ## Blocking service (`services/blocking.rs`) -/

/-- Embedding of `BlockingRule` (`services/blocking.rs:19-28`). -/
structure BlockingRule where
  id : List Char
  ruleType : List Char
  pattern : List Char
  mode : List Char
  active : Bool
deriving Repr, DecidableEq

/-- ASCII lowering, modelling `str::to_lowercase` on the ASCII names and
patterns in scope. -/
def lowerStr (s : List Char) : List Char :=
  s.map Char.toLower

/-- Model of Rust `str::contains(&str)`: substring containment.  Byte-level
containment of UTF-8 encodings coincides with character-level containment
because UTF-8 is self-synchronizing. -/
def containsSub (hay pat : List Char) : Bool :=
  decide (pat <:+: hay)

/-- State of `BlockingService` (`services/blocking.rs:32-39`) together
with the hosts file it manipulates.  The filesystem is modelled as
always readable and the hosts write as the successful direct write (the
privileged-helper fallback of `write_hosts_file` is behaviorally
identical when it succeeds).  `nextId` models the strictly increasing
timestamp used for fresh rule ids. -/
structure BlockingState where
  websiteRules : List BlockingRule
  applicationRules : List BlockingRule
  hostsBackup : Option (List Char)
  isRunning : Bool
  monitorHandle : Bool
  hostsFile : List Char
  nextId : Nat
deriving Repr, DecidableEq

/-- Externally observable side effects of the blocking service. -/
inductive ExtAction where
  | writeHosts (content : List Char)
  | flushDns
  | abortMonitor
deriving Repr, DecidableEq

/-- Trailing-whitespace trim, modelling `str::trim_end` on the hosts
contents in scope. -/
def trimEnd (s : List Char) : List Char :=
  (s.reverse.dropWhile isWsChar).reverse

/-- The entry `block_website` looks for (`services/blocking.rs:230`). -/
def blockEntry (domain : List Char) : List Char :=
  "127.0.0.1 ".toList ++ domain

/-- Embedding of `BlockingService::block_website`
(`services/blocking.rs:207-265`): snapshot the hosts file into the
backup slot only when the slot is empty, return early when the entry is
already present, otherwise append the block entries, record a new
website rule, and flush the DNS cache. -/
def blockWebsite (domain : List Char) (st : BlockingState) :
    BlockingState × List ExtAction × Bool :=
  let st0 := if st.hostsBackup = none then { st with hostsBackup := some st.hostsFile } else st
  let content := st0.hostsFile
  if containsSub content (blockEntry domain) then (st0, [], true)
  else
    let newContent := trimEnd content ++ "\n# NetWatch Block\n127.0.0.1 ".toList
      ++ domain ++ "\n127.0.0.1 www.".toList ++ domain ++ ['\n']
    let rule : BlockingRule :=
      ⟨"web-".toList ++ natDigits st0.nextId, "website".toList, domain, "block".toList, true⟩
    ({ st0 with
        hostsFile := newContent
        websiteRules := st0.websiteRules ++ [rule]
        nextId := st0.nextId + 1 },
     [ExtAction.writeHosts newContent, ExtAction.flushDns], true)

/-- Model of `str::lines`: split on newlines, dropping a final empty
segment and a trailing carriage return on each line. -/
def rustLines (s : List Char) : List (List Char) :=
  let parts := s.splitOn '\n'
  let parts := if parts.getLast? = some [] then parts.dropLast else parts
  parts.map (fun l => if l.getLast? = some '\r' then l.dropLast else l)

/-- Embedding of `BlockingService::unblock_website`
(`services/blocking.rs:268-304`): drop every `127.0.0.1` line whose
lower-cased text contains the lower-cased domain, write the result back,
remove the matching website rules, and flush the DNS cache. -/
def unblockWebsite (domain : List Char) (st : BlockingState) :
    BlockingState × List ExtAction × Bool :=
  let keep := (rustLines st.hostsFile).filter (fun line =>
    !(containsSub (lowerStr line) (lowerStr domain) && "127.0.0.1".toList.isPrefixOf line))
  let newContent := List.intercalate ['\n'] keep
  ({ st with
      hostsFile := newContent
      websiteRules :=
        st.websiteRules.filter (fun r => !(lowerStr r.pattern == lowerStr domain)) },
   [ExtAction.writeHosts newContent, ExtAction.flushDns], true)

/-- Embedding of `BlockingService::restore_hosts_file`
(`services/blocking.rs:377-385`): write the backup back verbatim when
one was captured, otherwise do nothing. -/
def restoreHostsFile (st : BlockingState) : BlockingState × List ExtAction :=
  match st.hostsBackup with
  | some content => ({ st with hostsFile := content }, [ExtAction.writeHosts content])
  | none => (st, [])

/-- Embedding of `BlockingService::stop` (`services/blocking.rs:88-97`):
clear the running flag, abort the monitor task when one was stored, and
restore the hosts file from the backup. -/
def stopService (st : BlockingState) : BlockingState × List ExtAction :=
  let st1 := { st with isRunning := false }
  let p1 : BlockingState × List ExtAction :=
    if st1.monitorHandle then ({ st1 with monitorHandle := false }, [ExtAction.abortMonitor])
    else (st1, [])
  let p2 := restoreHostsFile p1.1
  (p2.1, p1.2 ++ p2.2)

/-- Embedding of `BlockingService::block_application`
(`services/blocking.rs:388-398`). -/
def blockApplication (name : List Char) (st : BlockingState) : BlockingState :=
  let rule : BlockingRule :=
    ⟨"app-".toList ++ natDigits st.nextId, "application".toList, lowerStr name,
      "block".toList, true⟩
  { st with applicationRules := st.applicationRules ++ [rule], nextId := st.nextId + 1 }

/-- Embedding of `BlockingService::unblock_application`
(`services/blocking.rs:401-405`). -/
def unblockApplication (name : List Char) (st : BlockingState) : BlockingState :=
  { st with
    applicationRules :=
      st.applicationRules.filter (fun r => !(lowerStr r.pattern == lowerStr name)) }

/-- A live process as seen by the enforcement loop. -/
structure ProcInfo where
  pid : Nat
  name : List Char
deriving Repr, DecidableEq

/-- Embedding of `BlockingService::enforce_application_blocking`
(`services/blocking.rs:408-448`): one enforcement cycle, returning the
processes whose termination is requested.  The `HashSet` of patterns is
modelled as the list of active block patterns (deduplication does not
change which processes match). -/
def enforceApplicationBlocking (rules : List BlockingRule) (procs : List ProcInfo) :
    List ProcInfo :=
  if rules.isEmpty then []
  else
    let pats := (rules.filter (fun r => r.active && r.mode == "block".toList)).map
      (fun r => lowerStr r.pattern)
    if pats.isEmpty then []
    else procs.filter (fun p => pats.any (fun pat => containsSub (lowerStr p.name) pat))

/-- Embedding of `BlockingService::set_rules`
(`services/blocking.rs:451-473`): partition the incoming set by kind,
apply every active website block rule through `block_website` (which
appends its own rule entries), then overwrite both stored lists with the
partition. -/
def setRules (rules : List BlockingRule) (st : BlockingState) :
    BlockingState × List ExtAction :=
  let webs := rules.filter (fun r => r.ruleType == "website".toList)
  let apps := rules.filter (fun r => r.ruleType == "application".toList)
  let applied := (webs.filter (fun r => r.active && r.mode == "block".toList)).foldl
    (fun (p : BlockingState × List ExtAction) r =>
      let q := blockWebsite r.pattern p.1
      (q.1, p.2 ++ q.2.1)) (st, [])
  ({ applied.1 with
      websiteRules := webs
      applicationRules := apps }, applied.2)

/-! ## Arithmetic and character lemmas -/

theorem digitChar_toNat {m : Nat} (h : m < 10) : (Char.ofNat (48 + m)).toNat = 48 + m := by
  interval_cases m <;> decide

theorem digitChar_isDigit {m : Nat} (h : m < 10) : (Char.ofNat (48 + m)).isDigit = true := by
  interval_cases m <;> decide

theorem ne_of_isDigit_of_not {c x : Char} (h : c.isDigit = true)
    (hx : x.isDigit = false) : c ≠ x := by
  intro e
  rw [e, hx] at h
  cases h

theorem isWsChar_eq_false_of_isDigit {c : Char} (h : c.isDigit = true) :
    isWsChar c = false := by
  have h1 : c ≠ ' ' := ne_of_isDigit_of_not h (by decide)
  have h2 : c ≠ '\n' := ne_of_isDigit_of_not h (by decide)
  have h3 : c ≠ '\t' := ne_of_isDigit_of_not h (by decide)
  have h4 : c ≠ '\r' := ne_of_isDigit_of_not h (by decide)
  simp [isWsChar, h1, h2, h3, h4]

theorem natDigitsGo_spec : ∀ (n fl : Nat) (acc : List Char), n < fl →
    ∃ ds, natDigitsGo fl n acc = ds ++ acc ∧ ds ≠ [] ∧ ds.all Char.isDigit = true ∧
      ∀ a : Nat, ds.foldl digitStep a = a * 10 ^ ds.length + n := by
  intro n
  induction n using Nat.strong_induction_on with
  | _ n ih =>
    intro fl acc hfl
    cases fl with
    | zero => omega
    | succ m =>
      by_cases h10 : n < 10
      · refine ⟨[Char.ofNat (48 + n)], ?_, by simp, ?_, ?_⟩
        · simp [natDigitsGo, h10]
        · simp [digitChar_isDigit h10]
        · intro a
          simp [digitStep, digitChar_toNat h10]
      · have hdiv : n / 10 < n := Nat.div_lt_self (by omega) (by omega)
        obtain ⟨ds, hgo, hne, hdig, hval⟩ :=
          ih (n / 10) hdiv m (Char.ofNat (48 + n % 10) :: acc) (by omega)
        refine ⟨ds ++ [Char.ofNat (48 + n % 10)], ?_, by simp, ?_, ?_⟩
        · simp [natDigitsGo, h10, hgo]
        · simp only [List.all_append, hdig, Bool.true_and, List.all_cons, List.all_nil,
            Bool.and_true]
          exact digitChar_isDigit (Nat.mod_lt _ (by omega))
        · intro a
          rw [List.foldl_append, hval a]
          simp only [List.foldl_cons, List.foldl_nil, digitStep, List.length_append,
            List.length_cons, List.length_nil, Nat.zero_add]
          rw [digitChar_toNat (Nat.mod_lt n (show 0 < 10 by omega))]
          have hmod : 10 * (n / 10) + n % 10 = n := Nat.div_add_mod n 10
          have hpow : 10 ^ (ds.length + 1) = 10 ^ ds.length * 10 := by ring
          have hexp : (a * 10 ^ ds.length + n / 10) * 10 + (48 + n % 10 - 48)
              = a * (10 ^ ds.length * 10) + (10 * (n / 10) + n % 10) := by
            have : 48 + n % 10 - 48 = n % 10 := by omega
            rw [this]; ring
          rw [hexp, hmod, hpow]

theorem natDigits_spec (n : Nat) : natDigits n ≠ [] ∧ (natDigits n).all Char.isDigit = true ∧
    digitsVal (natDigits n) = n := by
  obtain ⟨ds, hgo, hne, hdig, hval⟩ := natDigitsGo_spec n (n + 1) [] (Nat.lt_succ_self _)
  have hds : natDigits n = ds := by simp [natDigits, hgo]
  refine ⟨by simp [hds, hne], by simp [hds, hdig], ?_⟩
  have := hval 0
  simp only [digitsVal, hds, this, Nat.zero_mul, Nat.zero_add]

theorem takeWhile_append_all {p : Char → Bool} : ∀ (xs ys : List Char),
    (∀ x ∈ xs, p x = true) → (∀ y, ys.head? = some y → p y = false) →
    (xs ++ ys).takeWhile p = xs ∧ (xs ++ ys).dropWhile p = ys := by
  intro xs
  induction xs with
  | nil =>
    intro ys _ hhd
    cases ys with
    | nil => simp
    | cons y ys =>
      have := hhd y rfl
      simp [List.takeWhile_cons, List.dropWhile_cons, this]
  | cons x xs ih =>
    intro ys hall hhd
    have hx : p x = true := hall x (List.mem_cons_self _ _)
    have := ih ys (fun z hz => hall z (List.mem_cons_of_mem _ hz)) hhd
    simp [List.takeWhile_cons, List.dropWhile_cons, hx, this.1, this.2]

theorem parseUsize_natDigits {n : Nat} (h : n < 2 ^ 64) :
    parseUsize (natDigits n) = some n := by
  obtain ⟨hne, hdig, hval⟩ := natDigits_spec n
  cases hds : natDigits n with
  | nil => exact absurd hds hne
  | cons d ds =>
    rw [hds] at hdig hval
    have hd : d.isDigit = true := by
      have := hdig
      simp only [List.all_cons, Bool.and_eq_true] at this
      exact this.1
    have hplus : d ≠ '+' := ne_of_isDigit_of_not hd (by decide)
    have hmatch : parseUsize (d :: ds) = parseUsizeDigits (d :: ds) := by
      simp only [parseUsize]
      split
      · rename_i heq
        injection heq with h1 _
        exact absurd h1 hplus
      · rfl
    rw [hmatch, parseUsizeDigits, if_pos ⟨by simp, hdig⟩, hval, if_pos h]

/-! ## Byte-slice lemmas -/

theorem pollGo_succ (fuel : Nat) (text : List Char) :
    pollGo (fuel + 1) text =
      (if text = [] then some []
      else
        match text.dropWhile (fun c => c ≠ ':'), parseUsize (text.takeWhile (fun c => c ≠ ':')) with
        | _ :: afterColon, some len =>
          match takeBytes afterColon (min len (byteLen afterColon)),
            dropBytes afterColon (min len (byteLen afterColon)) with
          | some frame, some rest => (pollGo fuel rest).map (frame :: ·)
          | _, _ => none
        | _, _ => some [text]) := rfl

theorem byteLen_append (a b : List Char) : byteLen (a ++ b) = byteLen a + byteLen b := by
  simp [byteLen]

theorem takeBytes_append : ∀ (f t : List Char), takeBytes (f ++ t) (byteLen f) = some f := by
  intro f
  induction f with
  | nil => intro t; simp [byteLen, takeBytes]
  | cons c cs ih =>
    intro t
    have hpos : 0 < c.utf8Size := Char.utf8Size_pos c
    have hlen : byteLen (c :: cs) = c.utf8Size + byteLen cs := by simp [byteLen]
    cases hn : byteLen (c :: cs) with
    | zero => omega
    | succ k =>
      rw [hn] at hlen
      simp only [List.cons_append, takeBytes]
      rw [if_pos (by omega)]
      have : k + 1 - c.utf8Size = byteLen cs := by omega
      rw [this]
      simp only [List.append_eq]
      rw [ih t]
      rfl

theorem dropBytes_append : ∀ (f t : List Char), dropBytes (f ++ t) (byteLen f) = some t := by
  intro f
  induction f with
  | nil => intro t; simp [byteLen, dropBytes]
  | cons c cs ih =>
    intro t
    have hpos : 0 < c.utf8Size := Char.utf8Size_pos c
    have hlen : byteLen (c :: cs) = c.utf8Size + byteLen cs := by simp [byteLen]
    cases hn : byteLen (c :: cs) with
    | zero => omega
    | succ k =>
      rw [hn] at hlen
      simp only [List.cons_append, dropBytes]
      rw [if_pos (by omega)]
      have : k + 1 - c.utf8Size = byteLen cs := by omega
      rw [this]
      simp only [List.append_eq]
      rw [ih t]

/-! ## Frame batching: decode of correctly prefixed bodies, fallback, totality -/

/-- A poll body made of frames each prefixed with its own byte length,
in the `<len>:<frame>` batching format. -/
def encodeFrames (fs : List (List Char)) : List Char :=
  fs.foldr (fun f acc => natDigits (byteLen f) ++ ':' :: (f ++ acc)) []

/-- Does the body begin with a parsable `<len>:` prefix?  Mirrors the
test at `socket/client.rs:415-416`. -/
def hasValidPrefix (text : List Char) : Bool :=
  match text.dropWhile (fun c => c ≠ ':'), parseUsize (text.takeWhile (fun c => c ≠ ':')) with
  | _ :: _, some _ => true
  | _, _ => false

theorem natDigits_not_colon (n : Nat) :
    ∀ x ∈ natDigits n, (fun c => decide (c ≠ ':')) x = true := by
  intro x hx
  have hdig : (natDigits n).all Char.isDigit = true := (natDigits_spec n).2.1
  have : x.isDigit = true := by
    rw [List.all_eq_true] at hdig
    exact hdig x hx
  simpa using ne_of_isDigit_of_not this (by decide)

theorem pollGo_encodeFrames : ∀ (fs : List (List Char)) (fl : Nat),
    (encodeFrames fs).length < fl → (∀ f ∈ fs, byteLen f < 2 ^ 64) →
    pollGo fl (encodeFrames fs) = some fs := by
  intro fs
  induction fs with
  | nil =>
    intro fl hfl _
    cases fl with
    | zero => omega
    | succ m => simp [encodeFrames, pollGo]
  | cons f fs ih =>
    intro fl hfl hbound
    have hLf : byteLen f < 2 ^ 64 := hbound f (List.mem_cons_self _ _)
    have henc : encodeFrames (f :: fs) = natDigits (byteLen f) ++ ':' :: (f ++ encodeFrames fs) := by
      simp [encodeFrames]
    have hne : natDigits (byteLen f) ≠ [] := (natDigits_spec _).1
    cases fl with
    | zero => omega
    | succ m =>
      have hsplit := takeWhile_append_all (natDigits (byteLen f)) (':' :: (f ++ encodeFrames fs))
        (natDigits_not_colon _) (by intro y hy; injection hy with hy; rw [← hy]; decide)
      simp only [pollGo, henc]
      have htne : natDigits (byteLen f) ++ ':' :: (f ++ encodeFrames fs) ≠ [] := by
        intro h
        exact hne (List.append_eq_nil.mp h).1
      rw [if_neg htne]
      rw [hsplit.1, hsplit.2, parseUsize_natDigits hLf]
      have hmin : min (byteLen f) (byteLen (f ++ encodeFrames fs)) = byteLen f := by
        rw [byteLen_append]; omega
      simp only [hmin, takeBytes_append, dropBytes_append]
      have hlen1 : (encodeFrames (f :: fs)).length =
          (natDigits (byteLen f)).length + 1 + f.length + (encodeFrames fs).length := by
        rw [henc]; simp; omega
      have hnd : 1 ≤ (natDigits (byteLen f)).length := by
        cases hq : natDigits (byteLen f) with
        | nil => exact absurd hq hne
        | cons a b => simp
      have : (encodeFrames fs).length < m := by omega
      rw [ih m this (fun g hg => hbound g (List.mem_cons_of_mem _ hg))]
      rfl

/-- Decoding a correctly length-prefixed body yields exactly its frames. -/
theorem parsePollingResponse_encodeFrames (fs : List (List Char))
    (hbound : ∀ f ∈ fs, byteLen f < 2 ^ 64) :
    parsePollingResponse (encodeFrames fs) = some fs :=
  pollGo_encodeFrames fs _ (Nat.lt_succ_self _) hbound

/-- A nonempty body with no valid length prefix decodes to one single frame. -/
theorem parsePollingResponse_fallback (text : List Char) (hne : text ≠ [])
    (hpre : hasValidPrefix text = false) :
    parsePollingResponse text = some [text] := by
  rw [parsePollingResponse]
  simp only [pollGo, if_neg hne]
  revert hpre
  rw [hasValidPrefix]
  cases hpost : text.dropWhile (fun c => c ≠ ':') with
  | nil => intro _; rfl
  | cons c after =>
    cases hp : parseUsize (text.takeWhile (fun c => c ≠ ':')) with
    | none => intro _; rfl
    | some len => intro h; cases h

theorem dropBytes_sublist : ∀ (s : List Char) (n : Nat) (t : List Char),
    dropBytes s n = some t → t.Sublist s := by
  intro s
  induction s with
  | nil =>
    intro n t h
    cases n with
    | zero => simp [dropBytes] at h; simp [← h]
    | succ n => simp [dropBytes] at h
  | cons c cs ih =>
    intro n t h
    cases n with
    | zero =>
      simp [dropBytes] at h
      simp [← h]
    | succ n =>
      simp only [dropBytes] at h
      split at h
      · exact (ih _ _ h).cons c
      · exact absurd h (by simp)

theorem takeBytes_ascii : ∀ (s : List Char) (n : Nat),
    (∀ c ∈ s, c.utf8Size = 1) → n ≤ byteLen s → ∃ u, takeBytes s n = some u := by
  intro s
  induction s with
  | nil =>
    intro n _ hn
    have : n = 0 := by simpa [byteLen] using hn
    exact ⟨[], by simp [this, takeBytes]⟩
  | cons c cs ih =>
    intro n hall hn
    cases n with
    | zero => exact ⟨[], by simp [takeBytes]⟩
    | succ n =>
      have hc : c.utf8Size = 1 := hall c (List.mem_cons_self _ _)
      have hcs : byteLen (c :: cs) = 1 + byteLen cs := by simp [byteLen, hc]
      obtain ⟨u, hu⟩ := ih n (fun x hx => hall x (List.mem_cons_of_mem _ hx)) (by omega)
      refine ⟨c :: u, ?_⟩
      simp only [takeBytes, hc]
      rw [if_pos (by omega)]
      simp [hu]

theorem dropBytes_ascii : ∀ (s : List Char) (n : Nat),
    (∀ c ∈ s, c.utf8Size = 1) → n ≤ byteLen s → ∃ u, dropBytes s n = some u := by
  intro s
  induction s with
  | nil =>
    intro n _ hn
    have : n = 0 := by simpa [byteLen] using hn
    exact ⟨[], by simp [this, dropBytes]⟩
  | cons c cs ih =>
    intro n hall hn
    cases n with
    | zero => exact ⟨c :: cs, by simp [dropBytes]⟩
    | succ n =>
      have hc : c.utf8Size = 1 := hall c (List.mem_cons_self _ _)
      have hcs : byteLen (c :: cs) = 1 + byteLen cs := by simp [byteLen, hc]
      obtain ⟨u, hu⟩ := ih n (fun x hx => hall x (List.mem_cons_of_mem _ hx)) (by omega)
      refine ⟨u, ?_⟩
      simp only [dropBytes, hc]
      rw [if_pos (by omega)]
      simpa using hu

/-- On all-ASCII bodies the parser is total: every computed boundary is a
character boundary. -/
theorem parsePollingResponse_ascii_total : ∀ (n : Nat) (text : List Char),
    text.length ≤ n → (∀ c ∈ text, c.utf8Size = 1) →
    ∃ fs, parsePollingResponse text = some fs := by
  intro n
  induction n with
  | zero =>
    intro text hlen _
    have : text = [] := List.length_eq_zero.mp (Nat.le_zero.mp hlen)
    exact ⟨[], by simp [this, parsePollingResponse, pollGo]⟩
  | succ n ih =>
    intro text hlen hascii
    by_cases he : text = []
    · exact ⟨[], by simp [he, parsePollingResponse, pollGo]⟩
    · rw [parsePollingResponse]
      have hpos : 0 < text.length := List.length_pos.mpr he
      obtain ⟨m, hm⟩ : ∃ m, text.length = m + 1 := ⟨text.length - 1, by omega⟩
      rw [hm, pollGo_succ, if_neg he]
      cases hpost : text.dropWhile (fun c => c ≠ ':') with
      | nil =>
        cases hp : parseUsize (text.takeWhile (fun c => c ≠ ':')) with
        | none => exact ⟨[text], rfl⟩
        | some len => exact ⟨[text], rfl⟩
      | cons c after =>
        cases hp : parseUsize (text.takeWhile (fun c => c ≠ ':')) with
        | none => exact ⟨[text], rfl⟩
        | some len =>
          have hsubl : (c :: after).Sublist text := hpost ▸ List.dropWhile_sublist _
          have haft : ∀ x ∈ after, x.utf8Size = 1 := fun x hx =>
            hascii x (hsubl.subset (List.mem_cons_of_mem _ hx))
          have hminle : min len (byteLen after) ≤ byteLen after := Nat.min_le_right _ _
          obtain ⟨frame, hframe⟩ := takeBytes_ascii after _ haft hminle
          obtain ⟨rest, hrest⟩ := dropBytes_ascii after _ haft hminle
          have hrsub : rest.Sublist after := dropBytes_sublist _ _ _ hrest
          have hrascii : ∀ x ∈ rest, x.utf8Size = 1 := fun x hx => haft x (hrsub.subset hx)
          have hafterlen : after.length + 1 ≤ text.length := by
            have := hsubl.length_le
            simpa using this
          have hrlen : rest.length < text.length := by
            have := hrsub.length_le
            omega
          obtain ⟨fs, hfs⟩ := ih rest (by omega) hrascii
          dsimp only
          rw [hframe, hrest]
          dsimp only
          rw [pollGo_eq_parsePollingResponse (m + 1) rest (by omega), hfs]
          exact ⟨frame :: fs, rfl⟩

/-! ## JSON render/parse round-trip lemmas -/

/-- Characters that render into a JSON string without escaping. -/
def simpleChar (c : Char) : Bool :=
  !(c = '"') && !(c = '\\')

theorem skipWs_cons {c : Char} (s : List Char) (h : isWsChar c = false) :
    skipWs (c :: s) = c :: s := by
  simp [skipWs, List.dropWhile_cons, h]

theorem parseStrGo_simple : ∀ (s : List Char) (fl : Nat) (rest : List Char),
    s.all simpleChar = true → s.length < fl →
    parseStrGo fl (s ++ '"' :: rest) = some (s, rest) := by
  intro s
  induction s with
  | nil =>
    intro fl rest _ hfl
    cases fl with
    | zero => omega
    | succ m => rfl
  | cons c cs ih =>
    intro fl rest hall hfl
    cases fl with
    | zero => omega
    | succ m =>
      simp only [List.all_cons, Bool.and_eq_true] at hall
      have hc : simpleChar c = true := hall.1
      simp only [simpleChar, Bool.and_eq_true, Bool.not_eq_true', decide_eq_false_iff_not] at hc
      simp only [List.cons_append, parseStrGo, if_neg hc.1, if_neg hc.2]
      rw [ih m rest hall.2 (by simpa using Nat.lt_of_succ_lt_succ hfl)]
      rfl

theorem parseStrBody_simple (s rest : List Char) (hall : s.all simpleChar = true) :
    parseStrBody (s ++ '"' :: rest) = some (s, rest) := by
  rw [parseStrBody]
  exact parseStrGo_simple s _ rest hall (by simp; omega)

theorem parseVal_str (fl : Nat) (s rest : List Char) (hs : s.all simpleChar = true) :
    parseVal (fl + 1) ('"' :: (s ++ '"' :: rest)) = some (Json.str s, rest) := by
  simp only [parseVal]
  rw [skipWs_cons _ (by decide)]
  simp only [if_pos rfl]
  rw [parseStrBody_simple s rest hs]
  rfl

theorem parseVal_num (fl n : Nat) (rest : List Char)
    (hrest : ∀ y, rest.head? = some y → y.isDigit = false) :
    parseVal (fl + 1) (natDigits n ++ rest) = some (Json.num n, rest) := by
  obtain ⟨hne, hdig, hval⟩ := natDigits_spec n
  cases hds : natDigits n with
  | nil => exact absurd hds hne
  | cons d ds =>
    rw [hds] at hdig hval
    simp only [List.all_cons, Bool.and_eq_true] at hdig
    have hd : d.isDigit = true := hdig.1
    simp only [List.cons_append, parseVal]
    rw [skipWs_cons _ (isWsChar_eq_false_of_isDigit hd)]
    dsimp only
    rw [if_neg (ne_of_isDigit_of_not hd (by decide)),
        if_neg (ne_of_isDigit_of_not hd (by decide)),
        if_neg (ne_of_isDigit_of_not hd (by decide)),
        if_neg (ne_of_isDigit_of_not hd (by decide)),
        if_neg (ne_of_isDigit_of_not hd (by decide)),
        if_neg (ne_of_isDigit_of_not hd (by decide)),
        if_pos hd]
    have hsplit := takeWhile_append_all ds rest
      (fun x hx => by
        rw [List.all_eq_true] at hdig
        exact hdig.2 x hx) hrest
    rw [hsplit.1, hsplit.2]
    have : digitsVal (d :: ds) = n := by simpa [digitsVal] using hval
    rw [this]

/-- Flat JSON values (strings and numbers), the field shapes of the
protocol objects whose round-trips the claims need. -/
inductive FlatVal where
  | vstr (s : List Char)
  | vnum (n : Nat)

def FlatVal.toJson : FlatVal → Json
  | .vstr s => Json.str s
  | .vnum n => Json.num n

def FlatVal.render : FlatVal → List Char
  | .vstr s => '"' :: (s ++ ['"'])
  | .vnum n => natDigits n

def FlatVal.good : FlatVal → Bool
  | .vstr s => s.all simpleChar
  | .vnum _ => true

/-- Render an association list of flat fields, comma separated. -/
def renderFlatFields : List (List Char × FlatVal) → List Char
  | [] => []
  | [(k, v)] => '"' :: (k ++ '"' :: ':' :: v.render)
  | (k, v) :: rest => '"' :: (k ++ '"' :: ':' :: (v.render ++ ',' :: renderFlatFields rest))

/-- All keys are escape-free and all values well formed. -/
def flatGood (fs : List (List Char × FlatVal)) : Prop :=
  ∀ p ∈ fs, p.1.all simpleChar = true ∧ p.2.good = true

theorem parseFlatVal (v : FlatVal) (fl : Nat) (rest : List Char) (hv : v.good = true)
    (hrest : ∀ y, rest.head? = some y → y.isDigit = false) :
    parseVal (fl + 1) (v.render ++ rest) = some (v.toJson, rest) := by
  cases v with
  | vstr s =>
    have : FlatVal.render (FlatVal.vstr s) ++ rest = '"' :: (s ++ '"' :: rest) := by
      simp [FlatVal.render]
    rw [this, parseVal_str fl s rest (by simpa [FlatVal.good] using hv)]
    rfl
  | vnum n =>
    rw [show FlatVal.render (FlatVal.vnum n) = natDigits n from rfl]
    rw [parseVal_num fl n rest hrest]
    rfl

theorem head_not_digit {c : Char} (t : List Char) (hc : c.isDigit = false) :
    ∀ y, (c :: t).head? = some y → y.isDigit = false := by
  intro y hy
  simp only [List.head?_cons, Option.some.injEq] at hy
  rw [← hy]
  exact hc

theorem parseObjFields_flat : ∀ (fs : List (List Char × FlatVal)) (fl : Nat) (rest : List Char),
    fs ≠ [] → flatGood fs →
    parseObjFields (fl + fs.length + 1) (renderFlatFields fs ++ '}' :: rest) =
      some (fs.map (fun p => (p.1, p.2.toJson)), rest) := by
  intro fs
  induction fs with
  | nil => intro fl rest hne _; exact absurd rfl hne
  | cons hd tl ih =>
    intro fl rest _ hgood
    obtain ⟨k, v⟩ := hd
    have hk : k.all simpleChar = true := (hgood (k, v) (List.mem_cons_self _ _)).1
    have hv : v.good = true := (hgood (k, v) (List.mem_cons_self _ _)).2
    cases tl with
    | nil =>
      have hfuel : fl + ([(k, v)] : List (List Char × FlatVal)).length + 1 = (fl + 1) + 1 := by
        simp
      rw [hfuel, parseObjFields.eq_2]
      have hshape : renderFlatFields [(k, v)] ++ '}' :: rest
          = '"' :: (k ++ '"' :: ':' :: (v.render ++ '}' :: rest)) := by
        simp [renderFlatFields]
      rw [hshape, skipWs_cons _ (by decide)]
      dsimp only
      rw [if_pos rfl]
      rw [parseStrBody_simple k (':' :: (v.render ++ '}' :: rest)) hk]
      simp only [Option.some_bind]
      rw [skipWs_cons _ (by decide)]
      dsimp only
      rw [if_pos rfl]
      rw [parseFlatVal v fl ('}' :: rest) hv (head_not_digit _ (by decide))]
      simp only [Option.some_bind]
      rw [skipWs_cons _ (by decide)]
      dsimp only
      rw [if_neg (by decide), if_pos rfl]
      rfl
    | cons hd2 tl2 =>
      have hfuel : fl + ((k, v) :: hd2 :: tl2).length + 1
          = ((fl + (hd2 :: tl2).length + 1) + 1) := by
        simp
        omega
      rw [hfuel, parseObjFields.eq_2]
      have hshape : renderFlatFields ((k, v) :: hd2 :: tl2) ++ '}' :: rest
          = '"' :: (k ++ '"' :: ':' :: (v.render ++ ','
              :: (renderFlatFields (hd2 :: tl2) ++ '}' :: rest))) := by
        simp [renderFlatFields]
      rw [hshape, skipWs_cons _ (by decide)]
      dsimp only
      rw [if_pos rfl]
      rw [parseStrBody_simple k (':' :: (v.render ++ ','
        :: (renderFlatFields (hd2 :: tl2) ++ '}' :: rest))) hk]
      simp only [Option.some_bind]
      rw [skipWs_cons _ (by decide)]
      dsimp only
      rw [if_pos rfl]
      rw [parseFlatVal v (fl + (hd2 :: tl2).length)
        (',' :: (renderFlatFields (hd2 :: tl2) ++ '}' :: rest)) hv
        (head_not_digit _ (by decide))]
      simp only [Option.some_bind]
      rw [skipWs_cons _ (by decide)]
      dsimp only
      rw [if_pos rfl]
      rw [ih fl rest (by simp) (fun p hp => hgood p (List.mem_cons_of_mem _ hp))]
      rfl

theorem renderFlatFields_cons_head (k : List Char) (v : FlatVal)
    (tl : List (List Char × FlatVal)) (t : List Char) :
    ∃ z, renderFlatFields ((k, v) :: tl) ++ t = '"' :: z := by
  cases tl with
  | nil => exact ⟨k ++ '"' :: ':' :: (v.render ++ t), by simp [renderFlatFields]⟩
  | cons hd2 tl2 =>
    exact ⟨k ++ '"' :: ':' :: (v.render ++ ',' :: (renderFlatFields (hd2 :: tl2) ++ t)),
      by simp [renderFlatFields]⟩

theorem renderFlatFields_length_ge : ∀ fs : List (List Char × FlatVal),
    fs.length ≤ (renderFlatFields fs).length := by
  intro fs
  induction fs with
  | nil => simp [renderFlatFields]
  | cons hd tl ih =>
    obtain ⟨k, v⟩ := hd
    cases tl with
    | nil => simp [renderFlatFields]
    | cons hd2 tl2 =>
      simp only [renderFlatFields, List.length_cons, List.length_append]
      have := ih
      simp only [List.length_cons] at this
      omega

theorem parseVal_flatObj : ∀ (fs : List (List Char × FlatVal)) (fl : Nat) (rest : List Char),
    flatGood fs →
    parseVal (fl + fs.length + 2) ('{' :: (renderFlatFields fs ++ '}' :: rest)) =
      some (Json.obj (fs.map (fun p => (p.1, p.2.toJson))), rest) := by
  intro fs fl rest hgood
  have hfuel : fl + fs.length + 2 = (fl + fs.length + 1) + 1 := rfl
  rw [hfuel, parseVal.eq_2, skipWs_cons _ (by decide)]
  dsimp only
  rw [if_neg (by decide), if_neg (by decide), if_pos rfl]
  cases fs with
  | nil =>
    rw [show renderFlatFields [] = ([] : List Char) from rfl]
    rw [show (([] : List Char) ++ '}' :: rest) = '}' :: rest by simp]
    rw [skipWs_cons _ (by decide)]
    dsimp only
    rw [if_pos rfl]
    rfl
  | cons hd tl =>
    obtain ⟨k, v⟩ := hd
    obtain ⟨z, hz⟩ := renderFlatFields_cons_head k v tl ('}' :: rest)
    rw [hz, skipWs_cons _ (by decide)]
    dsimp only
    rw [if_neg (by decide)]
    rw [← hz]
    rw [parseObjFields_flat ((k, v) :: tl) fl rest (by simp) hgood]
    rfl

theorem parseVal_eventBody : ∀ (fl : Nat) (ev : List Char) (fs : List (List Char × FlatVal))
    (rest : List Char), ev.all simpleChar = true → flatGood fs →
    parseVal (fl + fs.length + 5)
      ('[' :: '"' :: (ev ++ '"' :: ',' :: '{' :: (renderFlatFields fs ++ '}' :: ']' :: rest))) =
      some (Json.arr [Json.str ev, Json.obj (fs.map (fun p => (p.1, p.2.toJson)))], rest) := by
  intro fl ev fs rest hev hgood
  have hfuel : fl + fs.length + 5 = (fl + fs.length + 4) + 1 := rfl
  rw [hfuel, parseVal.eq_2, skipWs_cons _ (by decide)]
  dsimp only
  rw [if_neg (by decide), if_pos rfl]
  rw [skipWs_cons _ (by decide)]
  dsimp only
  rw [if_neg (by decide)]
  have ha1 : fl + fs.length + 4 = (fl + fs.length + 3) + 1 := rfl
  rw [ha1, parseArrElems.eq_2]
  have hv1 : fl + fs.length + 3 = (fl + fs.length + 2) + 1 := rfl
  rw [hv1, parseVal_str (fl + fs.length + 2) ev
    (',' :: '{' :: (renderFlatFields fs ++ '}' :: ']' :: rest)) hev]
  simp only [Option.some_bind]
  rw [skipWs_cons _ (by decide)]
  dsimp only
  rw [if_pos rfl]
  have ha2 : fl + fs.length + 3 = (fl + fs.length + 2) + 1 := rfl
  rw [ha2, parseArrElems.eq_2]
  rw [parseVal_flatObj fs fl (']' :: rest) hgood]
  simp only [Option.some_bind]
  rw [skipWs_cons _ (by decide)]
  dsimp only
  rw [if_neg (by decide), if_pos rfl]
  rfl

theorem jsonFromStr_flatObj (fs : List (List Char × FlatVal)) (hgood : flatGood fs) :
    jsonFromStr ('{' :: (renderFlatFields fs ++ ['}'])) =
      some (Json.obj (fs.map (fun p => (p.1, p.2.toJson)))) := by
  have hge := renderFlatFields_length_ge fs
  have hlen : ('{' :: (renderFlatFields fs ++ ['}'])).length
      = (renderFlatFields fs).length + 2 := by simp
  simp only [jsonFromStr]
  have hfuel : ('{' :: (renderFlatFields fs ++ ['}'])).length + 1
      = ((renderFlatFields fs).length + 1 - fs.length) + fs.length + 2 := by
    rw [hlen]; omega
  rw [hfuel]
  rw [show ('{' :: (renderFlatFields fs ++ ['}'])) =
    ('{' :: (renderFlatFields fs ++ '}' :: ([] : List Char))) from rfl]
  rw [parseVal_flatObj fs _ [] hgood]
  rfl

theorem jsonFromStr_eventBody (ev : List Char) (fs : List (List Char × FlatVal))
    (hev : ev.all simpleChar = true) (hgood : flatGood fs) :
    jsonFromStr ('[' :: '"' :: (ev ++ '"' :: ',' :: '{' :: (renderFlatFields fs ++ '}' :: [']']))) =
      some (Json.arr [Json.str ev, Json.obj (fs.map (fun p => (p.1, p.2.toJson)))]) := by
  have hge := renderFlatFields_length_ge fs
  have hlen : ('[' :: '"' :: (ev ++ '"' :: ',' :: '{'
      :: (renderFlatFields fs ++ '}' :: [']']))).length
      = ev.length + (renderFlatFields fs).length + 7 := by simp; omega
  simp only [jsonFromStr]
  have hfuel : ('[' :: '"' :: (ev ++ '"' :: ',' :: '{'
      :: (renderFlatFields fs ++ '}' :: [']']))).length + 1
      = (ev.length + (renderFlatFields fs).length + 3 - fs.length) + fs.length + 5 := by
    rw [hlen]; omega
  rw [hfuel]
  rw [show ('[' :: '"' :: (ev ++ '"' :: ',' :: '{' :: (renderFlatFields fs ++ '}' :: [']'])))
    = ('[' :: '"' :: (ev ++ '"' :: ',' :: '{'
        :: (renderFlatFields fs ++ '}' :: ']' :: ([] : List Char)))) from rfl]
  rw [parseVal_eventBody _ ev fs [] hev hgood]
  rfl

/-! ## Well-formed wire bodies used by the claims -/

/-- A flat JSON object rendered from its fields. -/
def renderFlatObj (fs : List (List Char × FlatVal)) : List Char :=
  '{' :: (renderFlatFields fs ++ ['}'])

/-- The fields of a well-formed handshake object. -/
def handshakeFields (sid : List Char) (pingI pingT : Nat) : List (List Char × FlatVal) :=
  [("sid".toList, FlatVal.vstr sid), ("pingInterval".toList, FlatVal.vnum pingI),
   ("pingTimeout".toList, FlatVal.vnum pingT)]

/-- A handshake response body of the form
`0{"sid":…,"pingInterval":…,"pingTimeout":…}`. -/
def handshakeBody (sid : List Char) (pingI pingT : Nat) : List Char :=
  '0' :: renderFlatObj (handshakeFields sid pingI pingT)

theorem handshakeFields_good (sid : List Char) (pingI pingT : Nat)
    (hs : sid.all simpleChar = true) : flatGood (handshakeFields sid pingI pingT) := by
  intro p hp
  simp only [handshakeFields, List.mem_cons, List.not_mem_nil, or_false] at hp
  rcases hp with h | h | h <;> subst h
  · exact ⟨show ("sid".toList).all simpleChar = true by decide,
      by simpa [FlatVal.good] using hs⟩
  · exact ⟨show ("pingInterval".toList).all simpleChar = true by decide, rfl⟩
  · exact ⟨show ("pingTimeout".toList).all simpleChar = true by decide, rfl⟩

theorem parseHandshake_handshakeBody (sid : List Char) (pingI pingT : Nat)
    (hs : sid.all simpleChar = true) (hpi : pingI < 2 ^ 64) (hpt : pingT < 2 ^ 64) :
    parseHandshake (handshakeBody sid pingI pingT) = Except.ok ⟨sid, pingI, pingT⟩ := by
  rw [handshakeBody, renderFlatObj]
  simp only [parseHandshake]
  rw [if_pos trivial]
  rw [jsonFromStr_flatObj _ (handshakeFields_good sid pingI pingT hs)]
  have hmap : (handshakeFields sid pingI pingT).map (fun p => (p.1, p.2.toJson))
      = [("sid".toList, Json.str sid), ("pingInterval".toList, Json.num pingI),
         ("pingTimeout".toList, Json.num pingT)] := rfl
  rw [hmap]
  dsimp only
  have h : handshakeFromJson (Json.obj [("sid".toList, Json.str sid),
      ("pingInterval".toList, Json.num pingI), ("pingTimeout".toList, Json.num pingT)])
      = if pingI < 2 ^ 64 ∧ pingT < 2 ^ 64 then some ⟨sid, pingI, pingT⟩ else none := rfl
  rw [h, if_pos ⟨hpi, hpt⟩]

theorem parseHandshake_not_open (text : List Char) (h : text.head? ≠ some '0') :
    parseHandshake text = Except.error (SocketError.connection "Invalid handshake".toList) := by
  cases text with
  | nil => rfl
  | cons c rest =>
    have hc : c ≠ '0' := by
      intro e
      exact h (by rw [e]; rfl)
    simp only [parseHandshake]
    rw [if_neg hc]

theorem processAuthResponse_done (regS regE : Bool) (auth : List Char) (st : ClientState)
    (acts : List NetAction) : ∃ st2 acts2 res,
    processAuthResponse regS regE auth st acts = ConnectOutcome.done st2 acts2 res ∧
      st2.sessionId = st.sessionId ∧ st2.connected = st.connected := by
  unfold processAuthResponse
  dsimp only
  repeat' split
  all_goals exact ⟨_, _, _, rfl, rfl, rfl⟩

theorem mkFrame_shape (ev : List Char) (fs : List (List Char × FlatVal)) :
    mkFrame ev (renderFlatObj fs) = "42/agent,".toList
      ++ ('[' :: '"' :: (ev ++ '"' :: ',' :: '{' :: (renderFlatFields fs ++ '}' :: [']']))) := by
  simp [mkFrame, renderFlatObj]

theorem mkFrame_isPrefix (ev json : List Char) :
    ("42/agent,".toList.isPrefixOf (mkFrame ev json)) = true := by
  rw [List.isPrefixOf_iff_prefix, mkFrame]
  exact List.prefix_append _ _

theorem mkFrame_drop9 (ev json : List Char) :
    (mkFrame ev json).drop 9 = '[' :: '"' :: (ev ++ '"' :: ',' :: json ++ [']']) := by
  rw [mkFrame]
  exact List.drop_left' (by rfl)

/-- The auth-error response frame `42/agent,["auth_error",{"message":…}]`. -/
def authErrorBody (msg : List Char) : List Char :=
  mkFrame "auth_error".toList (renderFlatObj [("message".toList, FlatVal.vstr msg)])

theorem processAuthResponse_authError (regS regE : Bool) (msg : List Char)
    (st : ClientState) (acts : List NetAction) (hmsg : msg.all simpleChar = true) :
    processAuthResponse regS regE (authErrorBody msg) st acts =
      ConnectOutcome.done st (acts ++ (if regE then [NetAction.fireAuthError msg] else []))
        (Except.error (SocketError.connection ("Auth failed: ".toList ++ msg))) := by
  unfold processAuthResponse authErrorBody
  rw [if_pos (mkFrame_isPrefix _ _), mkFrame_drop9]
  have hshape : ('[' :: '"' :: ("auth_error".toList ++ '"' :: ','
      :: renderFlatObj [("message".toList, FlatVal.vstr msg)] ++ [']']))
      = ('[' :: '"' :: ("auth_error".toList ++ '"' :: ',' :: '{'
        :: (renderFlatFields [("message".toList, FlatVal.vstr msg)] ++ '}' :: [']']))) := by
    simp [renderFlatObj]
  rw [hshape]
  rw [jsonFromStr_eventBody "auth_error".toList [("message".toList, FlatVal.vstr msg)]
    (by decide)
    (by
      intro p hp
      simp only [List.mem_cons, List.not_mem_nil, or_false] at hp
      subst hp
      exact ⟨show ("message".toList).all simpleChar = true by decide,
        by simpa [FlatVal.good] using hmsg⟩)]
  dsimp only
  simp only [List.head?_cons]
  rw [if_pos trivial]
  rfl

theorem connectModel_stores_sid (regS regE : Bool) (sid : List Char) (pingI pingT : Nat)
    (ns auth sys : List Char) (st : ClientState) (hs : sid.all simpleChar = true)
    (hpi : pingI < 2 ^ 64) (hpt : pingT < 2 ^ 64) (htx : st.outgoingTx = none) :
    ∃ st2 acts res,
      connectModel regS regE (handshakeBody sid pingI pingT) ns auth sys st =
        ConnectOutcome.done st2 acts res ∧ st2.sessionId = some sid := by
  unfold connectModel
  rw [parseHandshake_handshakeBody sid pingI pingT hs hpi hpt]
  dsimp only
  unfold emitModel
  dsimp only
  rw [htx]
  dsimp only [sendPollingPacket]
  obtain ⟨st2, acts2, res, heq, hsid, _⟩ := processAuthResponse_done regS regE auth
    { connected := true, sessionId := some sid, computerId := st.computerId, outgoingTx := none }
    ([NetAction.post "40/agent,".toList] ++ [NetAction.post (mkFrame "auth".toList sys)])
  rw [heq]
  exact ⟨st2, acts2, res, rfl, by rw [hsid]⟩

theorem connectModel_not_open (regS regE : Bool) (hb ns auth sys : List Char)
    (st : ClientState) (h : hb.head? ≠ some '0') :
    connectModel regS regE hb ns auth sys st = ConnectOutcome.done st []
      (Except.error (SocketError.connection "Invalid handshake".toList)) := by
  unfold connectModel
  rw [parseHandshake_not_open hb h]

theorem connectModel_authError (regS : Bool) (sid msg ns sys : List Char)
    (pingI pingT : Nat) (st : ClientState) (hs : sid.all simpleChar = true)
    (hmsg : msg.all simpleChar = true) (hpi : pingI < 2 ^ 64) (hpt : pingT < 2 ^ 64)
    (htx : st.outgoingTx = none) :
    ∃ st2 acts,
      connectModel regS true (handshakeBody sid pingI pingT) ns (authErrorBody msg) sys st =
        ConnectOutcome.done st2 acts
          (Except.error (SocketError.connection ("Auth failed: ".toList ++ msg))) ∧
      isConnected st2 = true ∧ NetAction.fireAuthError msg ∈ acts := by
  unfold connectModel
  rw [parseHandshake_handshakeBody sid pingI pingT hs hpi hpt]
  dsimp only
  unfold emitModel
  dsimp only
  rw [htx]
  dsimp only [sendPollingPacket]
  rw [processAuthResponse_authError regS true msg _ _ hmsg]
  refine ⟨_, _, rfl, rfl, ?_⟩
  simp

/-- An inbound command frame `42/agent,["command",{"id":…,"command":…}]`. -/
def commandFrame (i cmd : List Char) : List Char :=
  mkFrame "command".toList
    (renderFlatObj [("id".toList, FlatVal.vstr i), ("command".toList, FlatVal.vstr cmd)])

theorem mkFrame_ne_keepalive (ev json : List Char) :
    ¬(mkFrame ev json = "3".toList ∨ mkFrame ev json = "6".toList) := by
  rintro (h | h) <;>
    (have hl := congrArg List.length h
     rw [mkFrame, List.length_append] at hl
     have h9 : ("42/agent,".toList).length = 9 := rfl
     rw [h9] at hl
     simp at hl
     omega)

theorem processPollMessage_commandFrame {α : Type} (reg : Registry α) (i cmd : List Char)
    (hi : i.all simpleChar = true) (hcmd : cmd.all simpleChar = true) :
    processPollMessage reg (commandFrame i cmd) =
      reg.onCommand.map (fun cb => Dispatch.command cb ⟨i, cmd, none⟩) := by
  unfold processPollMessage commandFrame
  rw [if_neg (mkFrame_ne_keepalive _ _), if_pos (mkFrame_isPrefix _ _), mkFrame_drop9]
  have hshape : ('[' :: '"' :: ("command".toList ++ '"' :: ','
      :: renderFlatObj [("id".toList, FlatVal.vstr i), ("command".toList, FlatVal.vstr cmd)]
        ++ [']']))
      = ('[' :: '"' :: ("command".toList ++ '"' :: ',' :: '{'
        :: (renderFlatFields [("id".toList, FlatVal.vstr i), ("command".toList, FlatVal.vstr cmd)]
          ++ '}' :: [']']))) := by
    simp [renderFlatObj]
  rw [hshape]
  rw [jsonFromStr_eventBody "command".toList
    [("id".toList, FlatVal.vstr i), ("command".toList, FlatVal.vstr cmd)]
    (by decide)
    (by
      intro p hp
      simp only [List.mem_cons, List.not_mem_nil, or_false] at hp
      rcases hp with h | h <;> subst h
      · exact ⟨show ("id".toList).all simpleChar = true by decide,
          by simpa [FlatVal.good] using hi⟩
      · exact ⟨show ("command".toList).all simpleChar = true by decide,
          by simpa [FlatVal.good] using hcmd⟩)]
  dsimp only
  simp only [List.head?_cons]
  unfold handleEventStatic
  rw [if_pos rfl]
  rfl

/-! ## Blocking-service lemmas -/

/-- A website block/unblock command, as fired by the command handlers. -/
inductive WebOp where
  | block (domain : List Char)
  | unblock (domain : List Char)

def applyWebOp (o : WebOp) (st : BlockingState) : BlockingState :=
  match o with
  | .block d => (blockWebsite d st).1
  | .unblock d => (unblockWebsite d st).1

def applyWebOps (ops : List WebOp) (st : BlockingState) : BlockingState :=
  ops.foldl (fun s o => applyWebOp o s) st

theorem blockWebsite_captures_backup (d : List Char) (st : BlockingState)
    (h : st.hostsBackup = none) :
    ((blockWebsite d st).1).hostsBackup = some st.hostsFile := by
  unfold blockWebsite
  rw [if_pos h]
  dsimp only
  split <;> rfl

theorem blockWebsite_keeps_backup (d : List Char) (st : BlockingState) (c : List Char)
    (h : st.hostsBackup = some c) :
    ((blockWebsite d st).1).hostsBackup = some c := by
  unfold blockWebsite
  rw [h]
  rw [if_neg (show ¬(some c = (none : Option (List Char))) by simp)]
  dsimp only
  split
  · exact h
  · exact h

theorem applyWebOp_keeps_backup (o : WebOp) (st : BlockingState) (c : List Char)
    (h : st.hostsBackup = some c) : (applyWebOp o st).hostsBackup = some c := by
  cases o with
  | block d => exact blockWebsite_keeps_backup d st c h
  | unblock d => exact h

theorem applyWebOps_keeps_backup : ∀ (ops : List WebOp) (st : BlockingState) (c : List Char),
    st.hostsBackup = some c → (applyWebOps ops st).hostsBackup = some c := by
  intro ops
  induction ops with
  | nil => intro st c h; exact h
  | cons o rest ih =>
    intro st c h
    exact ih _ c (applyWebOp_keeps_backup o st c h)

theorem restoreHostsFile_writes_backup (st : BlockingState) (c : List Char)
    (h : st.hostsBackup = some c) :
    restoreHostsFile st = ({ st with hostsFile := c }, [ExtAction.writeHosts c]) := by
  unfold restoreHostsFile
  rw [h]

theorem stopService_fresh (st : BlockingState) (hm : st.monitorHandle = false)
    (hb : st.hostsBackup = none) :
    stopService st = ({ st with isRunning := false }, []) := by
  unfold stopService
  dsimp only
  rw [if_neg (by simpa using hm)]
  dsimp only
  unfold restoreHostsFile
  dsimp only
  rw [show ({ st with isRunning := false } : BlockingState).hostsBackup = st.hostsBackup
    from rfl, hb]
  rfl

theorem setRules_partitions (rules : List BlockingRule) (st : BlockingState) :
    (setRules rules st).1.websiteRules = rules.filter (fun r => r.ruleType == "website".toList) ∧
    (setRules rules st).1.applicationRules
      = rules.filter (fun r => r.ruleType == "application".toList) := by
  unfold setRules
  exact ⟨rfl, rfl⟩

theorem enforce_mem_iff (rules : List BlockingRule) (procs : List ProcInfo) (p : ProcInfo) :
    p ∈ enforceApplicationBlocking rules procs ↔
      p ∈ procs ∧ ∃ r ∈ rules, r.active = true ∧ r.mode = "block".toList ∧
        containsSub (lowerStr p.name) (lowerStr r.pattern) = true := by
  unfold enforceApplicationBlocking
  by_cases h1 : rules.isEmpty
  · rw [if_pos h1]
    rw [List.isEmpty_iff] at h1
    subst h1
    simp
  · rw [if_neg h1]
    by_cases h2 : ((rules.filter (fun r => r.active && r.mode == "block".toList)).map
        (fun r => lowerStr r.pattern)).isEmpty
    · rw [if_pos h2]
      rw [List.isEmpty_iff, List.map_eq_nil_iff, List.filter_eq_nil_iff] at h2
      simp only [List.not_mem_nil, false_iff, not_and]
      intro _ hcon
      obtain ⟨r, hr, hact, hmode, _⟩ := hcon
      exact absurd (by rw [hact, hmode]; simp) (h2 r hr)
    · rw [if_neg h2]
      simp only [List.mem_filter, List.any_eq_true, List.mem_map, Bool.and_eq_true,
        beq_iff_eq, and_congr_right_iff]
      intro _
      constructor
      · rintro ⟨pat, ⟨r, ⟨hr, hact, hmode⟩, rfl⟩, hcont⟩
        exact ⟨r, hr, hact, hmode, hcont⟩
      · rintro ⟨r, hr, hact, hmode, hcont⟩
        exact ⟨_, ⟨r, ⟨hr, hact, hmode⟩, rfl⟩, hcont⟩

/-! ## Claim theorems -/

/-- C1: for every handshake response body of the form `0` followed by a JSON
object with fields `sid`, `pingInterval` and `pingTimeout`, `connect()`
parses exactly those three values verbatim and stores the session id; for
every response body that does not start with `0`, `connect()` fails with an
error and changes nothing. -/
theorem claim_C1 :
    (∀ (sid : List Char) (pingI pingT : Nat) (regS regE : Bool) (ns auth sys : List Char)
      (st : ClientState), sid.all simpleChar = true → pingI < 2 ^ 64 → pingT < 2 ^ 64 →
      st.outgoingTx = none →
      parseHandshake (handshakeBody sid pingI pingT) = Except.ok ⟨sid, pingI, pingT⟩ ∧
      ∃ st2 acts res, connectModel regS regE (handshakeBody sid pingI pingT) ns auth sys st
          = ConnectOutcome.done st2 acts res ∧ st2.sessionId = some sid) ∧
    (∀ (text : List Char) (regS regE : Bool) (ns auth sys : List Char) (st : ClientState),
      text.head? ≠ some '0' →
      connectModel regS regE text ns auth sys st = ConnectOutcome.done st []
        (Except.error (SocketError.connection "Invalid handshake".toList))) := by
  constructor
  · intro sid pingI pingT regS regE ns auth sys st hs hpi hpt htx
    exact ⟨parseHandshake_handshakeBody sid pingI pingT hs hpi hpt,
      connectModel_stores_sid regS regE sid pingI pingT ns auth sys st hs hpi hpt htx⟩
  · intro text regS regE ns auth sys st h
    exact connectModel_not_open regS regE text ns auth sys st h

theorem claim_C1_witness :
    (parseHandshake (handshakeBody "abc".toList 25000 20000)
      = Except.ok ⟨"abc".toList, 25000, 20000⟩ ∧
    ∃ st2 acts res, connectModel false false (handshakeBody "abc".toList 25000 20000)
        "40/agent,".toList [] "\x7b\x7d".toList ⟨false, none, none, none⟩
        = ConnectOutcome.done st2 acts res ∧ st2.sessionId = some "abc".toList) ∧
    connectModel false false "nope".toList "40/agent,".toList [] "\x7b\x7d".toList
        ⟨false, none, none, none⟩
      = ConnectOutcome.done ⟨false, none, none, none⟩ []
        (Except.error (SocketError.connection "Invalid handshake".toList)) :=
  ⟨claim_C1.1 "abc".toList 25000 20000 false false "40/agent,".toList [] "\x7b\x7d".toList
      ⟨false, none, none, none⟩ (by decide) (by decide) (by decide) rfl,
   claim_C1.2 "nope".toList false false "40/agent,".toList [] "\x7b\x7d".toList
      ⟨false, none, none, none⟩ (by decide)⟩

/-- C2 as stated is false: after a handshake and namespace connect, the
client sets its connected flag before authentication, and the
`auth_error` path returns the error without clearing it.  Concretely,
this `connect()` run returns an error yet leaves `is_connected()` true. -/
theorem claim_C2_counterexample :
    connectModel false true
        "0\x7b\"sid\":\"abc\",\"pingInterval\":25000,\"pingTimeout\":20000\x7d".toList
        "40/agent,".toList "42/agent,[\"auth_error\",\x7b\"message\":\"bad token\"\x7d]".toList
        "\x7b\x7d".toList ⟨false, none, none, none⟩
      = ConnectOutcome.done ⟨true, some "abc".toList, none, none⟩
        [NetAction.post "40/agent,".toList, NetAction.post (mkFrame "auth".toList "\x7b\x7d".toList),
         NetAction.fireAuthError "bad token".toList]
        (Except.error (SocketError.connection ("Auth failed: bad token".toList))) ∧
    isConnected ⟨true, some "abc".toList, none, none⟩ = true :=
  ⟨rfl, rfl⟩

/-- C2 amended: when the server answers authentication with an
`auth_error` event, `connect()` fires the AuthError callback and fails
with the server's message, but the connected flag — set after the
namespace phase, before authentication — is left true, so
`is_connected()` afterwards returns true (not false as the claim
states). -/
theorem claim_C2 (regS : Bool) (sid msg ns sys : List Char) (pingI pingT : Nat)
    (st : ClientState) (hs : sid.all simpleChar = true) (hmsg : msg.all simpleChar = true)
    (hpi : pingI < 2 ^ 64) (hpt : pingT < 2 ^ 64) (htx : st.outgoingTx = none) :
    ∃ st2 acts,
      connectModel regS true (handshakeBody sid pingI pingT) ns (authErrorBody msg) sys st =
        ConnectOutcome.done st2 acts
          (Except.error (SocketError.connection ("Auth failed: ".toList ++ msg))) ∧
      isConnected st2 = true ∧ NetAction.fireAuthError msg ∈ acts :=
  connectModel_authError regS sid msg ns sys pingI pingT st hs hmsg hpi hpt htx

theorem claim_C2_witness :
    ∃ st2 acts,
      connectModel false true (handshakeBody "abc".toList 25000 20000) "40/agent,".toList
          (authErrorBody "bad token".toList) "\x7b\x7d".toList ⟨false, none, none, none⟩ =
        ConnectOutcome.done st2 acts
          (Except.error (SocketError.connection ("Auth failed: ".toList ++ "bad token".toList))) ∧
      isConnected st2 = true ∧ NetAction.fireAuthError "bad token".toList ∈ acts :=
  claim_C2 false "abc".toList "bad token".toList "40/agent,".toList "\x7b\x7d".toList 25000 20000
    ⟨false, none, none, none⟩ (by decide) (by decide) (by decide) (by decide) rfl

/-- C3 as stated is false on its own example: the frame
`42/agent,["capture_screenshot",null]` is 36 bytes long, so the body
prefixed `22:` is cut after 22 bytes, decodes to two garbage frames (not
one), and triggers zero dispatches of `capture_screenshot` (not one). -/
theorem claim_C3_counterexample :
    parsePollingResponse "22:42/agent,[\"capture_screenshot\",null]".toList
      = some ["42/agent,[\"capture_scr".toList, "eenshot\",null]".toList] ∧
    (processPollBody (⟨[], true⟩ : Registry Nat)
        "22:42/agent,[\"capture_screenshot\",null]".toList).map
      (fun l => l.countP Dispatch.isCapture) = some 0 :=
  ⟨rfl, rfl⟩

/-- C3 amended: a poll body whose frames are each prefixed with their own
byte length decodes to exactly those frames in order, and a nonempty body
with no valid length prefix is returned as one single frame; the example
body decodes to one frame and one `capture_screenshot` dispatch only when
its prefix is the frame's true length 36 (with prefix 22 it yields two
frames and zero dispatches). -/
theorem claim_C3 :
    (∀ fs : List (List Char), (∀ f ∈ fs, byteLen f < 2 ^ 64) →
      parsePollingResponse (encodeFrames fs) = some fs) ∧
    (∀ text : List Char, text ≠ [] → hasValidPrefix text = false →
      parsePollingResponse text = some [text]) ∧
    parsePollingResponse "36:42/agent,[\"capture_screenshot\",null]".toList
      = some ["42/agent,[\"capture_screenshot\",null]".toList] ∧
    (processPollBody (⟨[], true⟩ : Registry Nat)
        "36:42/agent,[\"capture_screenshot\",null]".toList).map
      (fun l => l.countP Dispatch.isCapture) = some 1 :=
  ⟨parsePollingResponse_encodeFrames, parsePollingResponse_fallback, rfl, rfl⟩

theorem claim_C3_witness :
    parsePollingResponse (encodeFrames ["ab".toList, "cde".toList])
      = some ["ab".toList, "cde".toList] ∧
    parsePollingResponse "abc".toList = some ["abc".toList] :=
  ⟨claim_C3.1 ["ab".toList, "cde".toList] (by decide),
   claim_C3.2.1 "abc".toList (by decide) (by decide)⟩

/-- C4: `emit(e, p)` serializes exactly the frame
`42/agent,["e",json(p)]`; with a sender channel present the frame is
pushed onto the bounded queue of capacity 100, and otherwise (with a
session id but no channel, as before session establishment) it is POSTed
directly. -/
theorem claim_C4 :
    (∀ e p : List Char,
      mkFrame e p = "42/agent,".toList ++ '[' :: '"' :: (e ++ '"' :: ',' :: p ++ [']'])) ∧
    queueCapacity = 100 ∧
    (∀ (e p : List Char) (st : ClientState) (q : List (List Char)),
      st.outgoingTx = some q → q.length < queueCapacity →
      emitModel e p st = EmitOutcome.done { st with outgoingTx := some (q ++ [mkFrame e p]) }
        [] (Except.ok ())) ∧
    (∀ (e p : List Char) (st : ClientState) (sid : List Char),
      st.outgoingTx = none → st.sessionId = some sid →
      emitModel e p st = EmitOutcome.done st [NetAction.post (mkFrame e p)] (Except.ok ())) := by
  refine ⟨fun e p => rfl, rfl, ?_, ?_⟩
  · intro e p st q htx hlen
    unfold emitModel
    rw [htx]
    dsimp only
    rw [if_pos hlen]
  · intro e p st sid htx hsid
    unfold emitModel
    rw [htx]
    dsimp only
    unfold sendPollingPacket
    rw [hsid]

theorem claim_C4_witness :
    emitModel "auth".toList "\x7b\x7d".toList ⟨true, some "abc".toList, none, some []⟩
      = EmitOutcome.done ⟨true, some "abc".toList, none,
          some [mkFrame "auth".toList "\x7b\x7d".toList]⟩ [] (Except.ok ()) ∧
    emitModel "auth".toList "\x7b\x7d".toList ⟨true, some "abc".toList, none, none⟩
      = EmitOutcome.done ⟨true, some "abc".toList, none, none⟩
        [NetAction.post (mkFrame "auth".toList "\x7b\x7d".toList)] (Except.ok ()) :=
  ⟨claim_C4.2.2.1 "auth".toList "\x7b\x7d".toList ⟨true, some "abc".toList, none, some []⟩ []
      rfl (by decide),
   claim_C4.2.2.2 "auth".toList "\x7b\x7d".toList ⟨true, some "abc".toList, none, none⟩
      "abc".toList rfl rfl⟩

/-- C5: for one incoming command frame, every callback registered via the
multi-slot command registration is invoked exactly once, in registration
order: the dispatch trace is exactly the registration list mapped over
the decoded payload; in particular two callbacks registered in sequence
both fire exactly once, in registration order. -/
theorem claim_C5 :
    (∀ (α : Type) (reg : Registry α) (data : Json) (p : CommandPayload),
      commandFromJson data = some p →
      handleEventStatic "command".toList data reg
        = reg.onCommand.map (fun cb => Dispatch.command cb p)) ∧
    (∀ (α : Type) (reg : Registry α) (i cmd : List Char),
      i.all simpleChar = true → cmd.all simpleChar = true →
      processPollMessage reg (commandFrame i cmd)
        = reg.onCommand.map (fun cb => Dispatch.command cb ⟨i, cmd, none⟩)) ∧
    (∀ (α : Type) (a b : α) (cap : Bool) (i cmd : List Char),
      i.all simpleChar = true → cmd.all simpleChar = true →
      processPollMessage (registerCommand b (registerCommand a ⟨[], cap⟩))
          (commandFrame i cmd)
        = [Dispatch.command a ⟨i, cmd, none⟩, Dispatch.command b ⟨i, cmd, none⟩]) := by
  refine ⟨?_, ?_, ?_⟩
  · intro α reg data p hp
    unfold handleEventStatic
    rw [if_pos rfl, hp]
  · intro α reg i cmd hi hcmd
    exact processPollMessage_commandFrame reg i cmd hi hcmd
  · intro α a b cap i cmd hi hcmd
    rw [processPollMessage_commandFrame _ i cmd hi hcmd]
    rfl

theorem claim_C5_witness :
    processPollMessage (registerCommand 8 (registerCommand 7 ⟨[], true⟩))
        (commandFrame "i1".toList "SET".toList)
      = [Dispatch.command 7 ⟨"i1".toList, "SET".toList, none⟩,
         Dispatch.command 8 ⟨"i1".toList, "SET".toList, none⟩] :=
  claim_C5.2.2 Nat 7 8 true "i1".toList "SET".toList (by decide) (by decide)

/-- C6: the hosts backup is captured at most once: the first
`block_website` call snapshots the prior hosts content, no later
block/unblock call overwrites that snapshot, and `restore_hosts_file`
writes back exactly the pre-block content after any number of
block/unblock cycles. -/
theorem claim_C6 (d : List Char) (ops : List WebOp) (st : BlockingState)
    (h : st.hostsBackup = none) :
    ((blockWebsite d st).1).hostsBackup = some st.hostsFile ∧
    (applyWebOps ops (blockWebsite d st).1).hostsBackup = some st.hostsFile ∧
    restoreHostsFile (applyWebOps ops (blockWebsite d st).1)
      = ({ applyWebOps ops (blockWebsite d st).1 with hostsFile := st.hostsFile },
         [ExtAction.writeHosts st.hostsFile]) := by
  have h1 := blockWebsite_captures_backup d st h
  have h2 := applyWebOps_keeps_backup ops _ _ h1
  exact ⟨h1, h2, restoreHostsFile_writes_backup _ _ h2⟩

theorem claim_C6_witness :
    ((blockWebsite "example.com".toList ⟨[], [], none, false, false, "H file".toList, 0⟩).1).hostsBackup
      = some "H file".toList ∧
    (applyWebOps [WebOp.block "other.com".toList, WebOp.unblock "example.com".toList]
        (blockWebsite "example.com".toList ⟨[], [], none, false, false, "H file".toList, 0⟩).1).hostsBackup
      = some "H file".toList ∧
    restoreHostsFile (applyWebOps [WebOp.block "other.com".toList, WebOp.unblock "example.com".toList]
        (blockWebsite "example.com".toList ⟨[], [], none, false, false, "H file".toList, 0⟩).1)
      = ({ applyWebOps [WebOp.block "other.com".toList, WebOp.unblock "example.com".toList]
            (blockWebsite "example.com".toList ⟨[], [], none, false, false, "H file".toList, 0⟩).1
          with hostsFile := "H file".toList },
         [ExtAction.writeHosts "H file".toList]) :=
  claim_C6 "example.com".toList [WebOp.block "other.com".toList, WebOp.unblock "example.com".toList]
    ⟨[], [], none, false, false, "H file".toList, 0⟩ rfl

/-- C7: in each enforcement cycle, a live process is terminated if and
only if its lower-cased name contains some lower-cased pattern of an
active rule with mode `block` (case-insensitive substring match);
in particular the pattern `app` matches a process named `myapp2.exe`,
and cycles with no matching pattern or process touch nothing. -/
theorem claim_C7 :
    (∀ (rules : List BlockingRule) (procs : List ProcInfo) (p : ProcInfo),
      p ∈ enforceApplicationBlocking rules procs ↔
        p ∈ procs ∧ ∃ r ∈ rules, r.active = true ∧ r.mode = "block".toList ∧
          containsSub (lowerStr p.name) (lowerStr r.pattern) = true) ∧
    enforceApplicationBlocking
        [⟨"r1".toList, "application".toList, "app".toList, "block".toList, true⟩]
        [⟨1, "myapp2.exe".toList⟩]
      = [⟨1, "myapp2.exe".toList⟩] :=
  ⟨enforce_mem_iff, rfl⟩

/-- C8: after `set_rules(R)` the stored website rule list is exactly the
rules of `R` of type `website` and the stored application rule list is
exactly the rules of `R` of type `application`, regardless of the
entries `block_website` appends while the active website block rules are
applied mid-call. -/
theorem claim_C8 (rules : List BlockingRule) (st : BlockingState) :
    (setRules rules st).1.websiteRules = rules.filter (fun r => r.ruleType == "website".toList) ∧
    (setRules rules st).1.applicationRules
      = rules.filter (fun r => r.ruleType == "application".toList) :=
  setRules_partitions rules st

/-- C9: `stop()` on a never-started service (no monitor task, no captured
hosts backup) returns successfully with no external teardown action, does
not write the hosts file, and leaves the rule lists and the backup slot
unchanged. -/
theorem claim_C9 (st : BlockingState) (hm : st.monitorHandle = false)
    (hb : st.hostsBackup = none) :
    stopService st = ({ st with isRunning := false }, []) ∧
    (stopService st).1.websiteRules = st.websiteRules ∧
    (stopService st).1.applicationRules = st.applicationRules ∧
    (stopService st).1.hostsBackup = none ∧
    (stopService st).1.hostsFile = st.hostsFile ∧
    (stopService st).2 = [] := by
  have h := stopService_fresh st hm hb
  refine ⟨h, ?_, ?_, ?_, ?_, ?_⟩ <;> rw [h]
  exact hb

theorem claim_C9_witness :
    stopService ⟨[], [], none, false, false, "H file".toList, 0⟩
      = (⟨[], [], none, false, false, "H file".toList, 0⟩, []) ∧
    (stopService ⟨[], [], none, false, false, "H file".toList, 0⟩).1.websiteRules = [] ∧
    (stopService ⟨[], [], none, false, false, "H file".toList, 0⟩).1.applicationRules = [] ∧
    (stopService ⟨[], [], none, false, false, "H file".toList, 0⟩).1.hostsBackup = none ∧
    (stopService ⟨[], [], none, false, false, "H file".toList, 0⟩).1.hostsFile = "H file".toList ∧
    (stopService ⟨[], [], none, false, false, "H file".toList, 0⟩).2 = [] :=
  claim_C9 ⟨[], [], none, false, false, "H file".toList, 0⟩ rfl rfl

/-- C10 as stated is false: a length prefix whose computed byte boundary
falls inside a multi-byte UTF-8 character makes the slice panic; the
body `1:é` is such an input (modelled as `none`). -/
theorem claim_C10_counterexample :
    parsePollingResponse "1:é".toList = none :=
  rfl

/-- C10 amended: `parse_polling_response` returns a list of frames
without panicking on every input all of whose characters are single-byte
(every computed boundary then falls on a character boundary); on a body
where a boundary falls inside a multi-byte character, such as `1:é`, the
byte slice panics (modelled as `none`). -/
theorem claim_C10 (text : List Char) (h : ∀ c ∈ text, c.utf8Size = 1) :
    ∃ fs, parsePollingResponse text = some fs :=
  parsePollingResponse_ascii_total text.length text le_rfl h

theorem claim_C10_witness :
    ∃ fs, parsePollingResponse "2:ab3:cde".toList = some fs :=
  claim_C10 "2:ab3:cde".toList (by decide)
